import Mathlib

/-!
Shallow embedding of `src/core/utils/ocr_data_util.py` (class `OcrDataUtil`)
from the guji-reader-py repository, together with theorems settling the
specification claims about orientation detection, filtering and reading-order
sorting of OCR detections.

Modelling conventions:
* pixel coordinates are exact rationals (`ℚ`);
* a Python operation that can raise (`min`/`max` of an empty sequence,
  out-of-range list indexing) is modelled in the `Option` monad; `none`
  marks "an exception was raised here";
* the catch-all `try/except` of `sort_by_orientation` is the final `match`
  in `sortByOrientation`;
* a Python result dict is `OcrResult`; its optional `"orientation"` key is an
  `Option String` field (`none` = the key is absent from the returned dict).
-/

namespace GujiReader

open List

/-- A 2D point, as an exact rational pair `(x, y)`. -/
abbrev Point := ℚ × ℚ

/-- A polygon: the list of its points (the OCR detector emits 4 of them,
but the code never checks the count). -/
abbrev Poly := List Point

/-- The input record of `sort_by_orientation`: three parallel sequences, as
produced by the OCR client (`rec_texts`, `rec_scores`, `rec_polys`). -/
structure Page where
  rec_texts : List String
  rec_scores : List ℚ
  rec_polys : List Poly
deriving DecidableEq

/-- A result dict of `filter_by_orientation` / `sort_by_orientation`.
`orientation = none` models a dict that has no `"orientation"` key. -/
structure OcrResult where
  orientation : Option String
  rec_texts : List String
  rec_scores : List ℚ
  rec_polys : List Poly
deriving DecidableEq

/-- Python `min` over a list of rationals: raises (`none`) on the empty
list, otherwise folds `min`. -/
def listMin : List ℚ → Option ℚ
  | [] => none
  | x :: xs => some (xs.foldl min x)

/-- Python `max` over a list of rationals: raises (`none`) on the empty
list, otherwise folds `max`. -/
def listMax : List ℚ → Option ℚ
  | [] => none
  | x :: xs => some (xs.foldl max x)

/-- Monadic map over `Option`, written out so that proofs can recurse on it.
`none` propagates the first raised exception. -/
def mapOpt (f : α → Option β) : List α → Option (List β)
  | [] => some []
  | a :: as => do
    let b ← f a
    let bs ← mapOpt f as
    pure (b :: bs)

/-- An axis-aligned bounding box `(x_min, y_min, x_max, y_max)` as computed
by the source: `min(xs), min(ys), max(xs), max(ys)` of a polygon. -/
structure Box where
  x1 : ℚ
  y1 : ℚ
  x2 : ℚ
  y2 : ℚ
deriving DecidableEq

/-- Bounding box of a polygon, as computed at
`ocr_data_util.py` lines 23-26 / 92-95 / 144-146: `min`/`max` of the
coordinate lists; raises (`none`) when the polygon has no points. -/
def polyBox (poly : Poly) : Option Box := do
  let xmin ← listMin (poly.map Prod.fst)
  let xmax ← listMax (poly.map Prod.fst)
  let ymin ← listMin (poly.map Prod.snd)
  let ymax ← listMax (poly.map Prod.snd)
  pure ⟨xmin, ymin, xmax, ymax⟩

/-- Aspect ratio `w / h if h > 0 else 10` of a bounding box
(`ocr_data_util.py` lines 28-30 and 97-98). -/
def aspectOf (b : Box) : ℚ :=
  let w := b.x2 - b.x1
  let h := b.y2 - b.y1
  if 0 < h then w / h else 10

/-- Per-line orientation vote of `detect_text_orientation`
(lines 36-42): `some true` = counted as a vertical line (`ar < 0.6`),
`some false` = counted as a horizontal line (`ar > 1.4`), `none` = the
middle band `0.6 ≤ ar ≤ 1.4` which is not counted at all. -/
def lineVote (ar : ℚ) : Option Bool :=
  if ar < 0.6 then some true
  else if 1.4 < ar then some false
  else none

/-- Embedding of `OcrDataUtil.detect_text_orientation` (lines 8-61), on the
`rec_polys` list. Returns `some "horizontal"`/`some "vertical"`; `none`
models a raised exception (empty polygon). Majority vote on the per-line
votes; ties fall back to the global aspect ratio of all boxes. -/
def detectTextOrientation (polys : List Poly) : Option String :=
  if polys.isEmpty then some "horizontal"
  else do
    let boxes ← mapOpt polyBox polys
    let aspects := boxes.map aspectOf
    let verticalLines := aspects.countP (fun ar => lineVote ar == some true)
    let horizontalLines := aspects.countP (fun ar => lineVote ar == some false)
    if horizontalLines < verticalLines then pure "vertical"
    else if verticalLines < horizontalLines then pure "horizontal"
    else do
      let allX := boxes.flatMap (fun b => [b.x1, b.x2])
      let allY := boxes.flatMap (fun b => [b.y1, b.y2])
      let xmin ← listMin allX
      let xmax ← listMax allX
      let ymin ← listMin allY
      let ymax ← listMax allY
      let globalW := xmax - xmin
      let globalH := ymax - ymin
      let globalAr := if 0 < globalH then globalW / globalH else 1
      pure (if globalAr < 0.8 then "vertical" else "horizontal")

/-- The keep/drop decision of `filter_by_orientation` (lines 100-111): on a
vertical page a line is dropped when its aspect ratio exceeds 1.5; on any
other orientation a line is dropped when its aspect ratio is below 1.5. -/
def keepLine (orientation : String) (ar : ℚ) : Bool :=
  if orientation = "vertical" then !(1.5 < ar) else !(ar < 1.5)

/-- The loop body of `filter_by_orientation` (lines 91-117), recursing over
the remaining polygons with `i` the current index into the parallel
`texts`/`scores` lists. A dropped line still reads `texts[i]` (the source
interpolates it into the log message), so that access stays fallible. -/
def filterStep (orientation : String) (texts : List String) (scores : List ℚ) :
    Nat → List Poly → Option (List String × List ℚ × List Poly)
  | _, [] => some ([], [], [])
  | i, poly :: rest => do
    let b ← polyBox poly
    let ar := aspectOf b
    if keepLine orientation ar then do
      let t ← texts[i]?
      let s ← scores[i]?
      let (ts, ss, ps) ← filterStep orientation texts scores (i + 1) rest
      pure (t :: ts, s :: ss, poly :: ps)
    else do
      let _ ← texts[i]?
      filterStep orientation texts scores (i + 1) rest

/-- Embedding of `OcrDataUtil.filter_by_orientation` (lines 63-124). The
early return for an empty polygon list (lines 82-88) builds a dict without
an `"orientation"` key, hence `orientation := none` there; the normal
return (lines 119-124) carries `some orientation`. -/
def filterByOrientation (orientation : String) (texts : List String)
    (scores : List ℚ) (polys : List Poly) : Option OcrResult :=
  if polys.isEmpty then some ⟨none, [], [], []⟩
  else do
    let (ts, ss, ps) ← filterStep orientation texts scores 0 polys
    pure ⟨some orientation, ts, ss, ps⟩

/-- Sort key of the horizontal branch (lines 151-152): Python's stable
`sorted(range(n), key=lambda i: (boxes[i][1], boxes[i][0]))` is sorting by
the lexicographic key `(ymin, xmin, original index)`. -/
def hKey (boxes : List Box) (i : Nat) : ℚ × ℚ × Nat :=
  let b := boxes.getD i ⟨0, 0, 0, 0⟩
  (b.y1, b.x1, i)

/-- Lexicographic order on `(ymin, xmin, index)` triples. -/
def keyLe (a b : ℚ × ℚ × Nat) : Prop :=
  a.1 < b.1 ∨ (a.1 = b.1 ∧ (a.2.1 < b.2.1 ∨ (a.2.1 = b.2.1 ∧ a.2.2 ≤ b.2.2)))

instance (a b : ℚ × ℚ × Nat) : Decidable (keyLe a b) := by
  unfold keyLe; infer_instance

/-- The horizontal branch of `sort_by_orientation` (lines 149-152): indices
sorted by `(ymin, xmin)` with ties kept in original order. -/
def horizontalSort (boxes : List Box) : List Nat :=
  (List.range boxes.length).insertionSort (fun i j => keyLe (hKey boxes i) (hKey boxes j))

/-- The x-center `(box[0] + box[2]) / 2` of a box (line 170). -/
def xCenter (b : Box) : ℚ := (b.x1 + b.x2) / 2

/-- One iteration of the column-assignment loop (lines 169-182): scan the
existing columns in insertion order; the box joins the first column whose
key is within `threshold` of the box's x-center, otherwise it founds a new
column at the end, keyed by its own x-center. -/
def insertCol (threshold : ℚ) (p : Nat × Box) :
    List (ℚ × List (Nat × Box)) → List (ℚ × List (Nat × Box))
  | [] => [(xCenter p.2, [p])]
  | (k, ms) :: rest =>
    if |xCenter p.2 - k| ≤ threshold then (k, ms ++ [p]) :: rest
    else (k, ms) :: insertCol threshold p rest

/-- The full column-assignment loop over the enumerated boxes: an
association list from column key (founder's x-center) to members, in
insertion order — the Lean image of `col_dict`/`col_keys`. -/
def buildCols (threshold : ℚ) (items : List (Nat × Box)) :
    List (ℚ × List (Nat × Box)) :=
  items.foldl (fun cols p => insertCol threshold p cols) []

/-- Within-column order (lines 185-187): Python's stable sort on `ymin`
equals the lexicographic order on `(ymin, index)` because members are
collected in ascending index order. -/
def memberLe (a b : Nat × Box) : Prop :=
  a.2.y1 < b.2.y1 ∨ (a.2.y1 = b.2.y1 ∧ a.1 ≤ b.1)

instance (a b : Nat × Box) : Decidable (memberLe a b) := by
  unfold memberLe; infer_instance

/-- Sort one column's members from top to bottom. -/
def sortColumn (c : ℚ × List (Nat × Box)) : ℚ × List (Nat × Box) :=
  (c.1, c.2.insertionSort memberLe)

/-- Column order (line 190): keys sorted descending, i.e. right-to-left. -/
def colGe (a b : ℚ × List (Nat × Box)) : Prop := b.1 ≤ a.1

instance (a b : ℚ × List (Nat × Box)) : Decidable (colGe a b) := by
  unfold colGe; infer_instance

/-- The column clusters in the order in which the vertical branch emits
them (lines 184-195): members of each column sorted by `ymin`, columns
sorted by key descending. -/
def emittedClusters (threshold : ℚ) (boxes : List Box) :
    List (ℚ × List (Nat × Box)) :=
  ((buildCols threshold boxes.enum).map sortColumn).insertionSort colGe

/-- The vertical branch of `sort_by_orientation` (lines 153-195): adaptive
threshold `max(10, 0.05 * (max_x - min_x))` over all x-coordinates, column
assignment by x-center, columns emitted right-to-left, each top-to-bottom. -/
def verticalSort (boxes : List Box) : List Nat :=
  match boxes.flatMap (fun b => [b.x1, b.x2]) with
  | [] => List.range boxes.length
  | x :: xs =>
    let minX := xs.foldl min x
    let maxX := xs.foldl max x
    (emittedClusters (max 10 (0.05 * (maxX - minX))) boxes).flatMap
      (fun c => c.2.map Prod.fst)

/-- The body of `OcrDataUtil.sort_by_orientation`'s `try` block
(lines 133-211): detect the orientation, extract boxes, sort indices by the
orientation-specific rule, regroup the three parallel lists, then filter.
`none` models any exception raised along the way. -/
def sortByOrientationCore (d : Page) : Option OcrResult := do
  let polys := d.rec_polys
  let texts := d.rec_texts
  let scores := d.rec_scores
  let orientation ← detectTextOrientation polys
  let boxes ← mapOpt polyBox polys
  let sortedIndices :=
    if orientation = "horizontal" then horizontalSort boxes else verticalSort boxes
  let sortedTexts ← mapOpt (fun i => texts[i]?) sortedIndices
  let sortedScores ← mapOpt (fun i => scores[i]?) sortedIndices
  let sortedPolys ← mapOpt (fun i => polys[i]?) sortedIndices
  filterByOrientation orientation sortedTexts sortedScores sortedPolys

/-- Embedding of `OcrDataUtil.sort_by_orientation` (lines 126-214),
including the catch-all `except` (lines 212-214) that returns the original
input dict unchanged (which carries no `"orientation"` key). -/
def sortByOrientation (d : Page) : OcrResult :=
  match sortByOrientationCore d with
  | some r => r
  | none => ⟨none, d.rec_texts, d.rec_scores, d.rec_polys⟩

/-- The (text, score, polygon) triples of three parallel lists, used to
state permutation/subsequence properties. -/
def triples (ts : List String) (ss : List ℚ) (ps : List Poly) :
    List (String × ℚ × Poly) :=
  ts.zip (ss.zip ps)

/-- All members of all columns of an association list, in order: the
multiset of `(index, box)` pairs the clustering distributed. -/
def colMembers (cols : List (ℚ × List (Nat × Box))) : List (Nat × Box) :=
  cols.flatMap Prod.snd

/-- Concrete input: a single 29x20 polygon, aspect ratio 1.45. It votes
horizontal (1.45 > 1.4) but is then dropped by the filter (1.45 < 1.5). -/
def pageC1 : Page :=
  ⟨["a"], [1], [[(0, 0), (29, 0), (29, 20), (0, 20)]]⟩

/-- Concrete input: one large horizontal box (200x100, aspect 2,
area 20000) and two small vertical boxes (5x10, aspect 1/2, area 50 each). -/
def polysC2 : List Poly :=
  [[(0, 0), (200, 0), (200, 100), (0, 100)],
   [(0, 0), (5, 0), (5, 10), (0, 10)],
   [(10, 0), (15, 0), (15, 10), (10, 10)]]

/-- Concrete input: two large boxes with aspect ratio 0.8 (80x100) and one
tiny wide box with aspect ratio 2 (2x1). -/
def polysC3 : List Poly :=
  [[(0, 0), (80, 0), (80, 100), (0, 100)],
   [(100, 0), (180, 0), (180, 100), (100, 100)],
   [(0, 200), (2, 200), (2, 201), (0, 201)]]

/-- Concrete input: two boxes with identical right edge `x2 = 100` but
x-centers 98 and 85 (widths 4 and 30). -/
def boxesC4 : List Box := [⟨96, 0, 100, 10⟩, ⟨70, 20, 100, 80⟩]

/-- Concrete boxes: index 0 at center 100 (x2 = 105), index 1 at center 111
(x2 = 116), index 2 at center 108 (x2 = 118, clusters with index 0). -/
def boxesC5 : List Box :=
  [⟨95, 0, 105, 20⟩, ⟨106, 0, 116, 20⟩, ⟨98, 30, 118, 64⟩]

/-- The page whose boxes are `boxesC5`, all with vertical aspect ratios. -/
def pageC5 : Page :=
  ⟨["a", "b", "c"], [1, 1, 1],
   [[(95, 0), (105, 0), (105, 20), (95, 20)],
    [(106, 0), (116, 0), (116, 20), (106, 20)],
    [(98, 30), (118, 30), (118, 64), (98, 64)]]⟩

/-- Concrete input: three wide boxes (aspect 2) at `y = [0, 0, 10]`,
`x = [50, 0, 0]`, texts named after the spec example. -/
def pageC6 : Page :=
  ⟨["A", "B", "C"], [1, 1, 1],
   [[(50, 0), (70, 0), (70, 10), (50, 10)],
    [(0, 0), (20, 0), (20, 10), (0, 10)],
    [(0, 10), (20, 10), (20, 20), (0, 20)]]⟩

/-- Concrete input with inconsistent parallel arrays: one polygon but an
empty `rec_texts` list, so `texts[i]` raises during regrouping. -/
def pageC7 : Page := ⟨[], [1], [[(0, 0), (20, 0), (20, 10), (0, 10)]]⟩

/-- Concrete input whose first polygon has only 2 points (aspect 1) next to
a well-formed wide polygon (aspect 2). -/
def pageC9 : Page :=
  ⟨["a", "b"], [1, 1],
   [[(0, 0), (10, 10)], [(0, 20), (40, 20), (40, 40), (0, 40)]]⟩

/-- Concrete filter input: a wide box and a square box with matching texts
and scores. -/
def pageC10 : Page :=
  ⟨["w", "sq"], [1, 1],
   [[(0, 0), (30, 0), (30, 10), (0, 10)], [(0, 20), (10, 20), (10, 30), (0, 30)]]⟩

/-- Concrete input: a single wide, well-formed detection, on which the
whole pipeline succeeds. -/
def pageC8 : Page := ⟨["x"], [1], [[(0, 0), (30, 0), (30, 10), (0, 10)]]⟩

/-! ### Order lemmas for the sort keys -/

theorem keyLe_total (a b : ℚ × ℚ × Nat) : keyLe a b ∨ keyLe b a := by
  unfold keyLe
  rcases lt_trichotomy a.1 b.1 with h | h | h
  · exact Or.inl (Or.inl h)
  · rcases lt_trichotomy a.2.1 b.2.1 with h2 | h2 | h2
    · exact Or.inl (Or.inr ⟨h, Or.inl h2⟩)
    · rcases le_total a.2.2 b.2.2 with h3 | h3
      · exact Or.inl (Or.inr ⟨h, Or.inr ⟨h2, h3⟩⟩)
      · exact Or.inr (Or.inr ⟨h.symm, Or.inr ⟨h2.symm, h3⟩⟩)
    · exact Or.inr (Or.inr ⟨h.symm, Or.inl h2⟩)
  · exact Or.inr (Or.inl h)

theorem keyLe_trans (a b c : ℚ × ℚ × Nat) (h1 : keyLe a b) (h2 : keyLe b c) :
    keyLe a c := by
  unfold keyLe at h1 h2 ⊢
  rcases h1 with h1 | ⟨e1, h1⟩
  · rcases h2 with h2 | ⟨e2, _⟩
    · exact Or.inl (h1.trans h2)
    · exact Or.inl (e2 ▸ h1)
  · rcases h2 with h2 | ⟨e2, h2⟩
    · exact Or.inl (e1 ▸ h2)
    · refine Or.inr ⟨e1.trans e2, ?_⟩
      rcases h1 with h1 | ⟨f1, h1⟩
      · rcases h2 with h2 | ⟨f2, _⟩
        · exact Or.inl (h1.trans h2)
        · exact Or.inl (f2 ▸ h1)
      · rcases h2 with h2 | ⟨f2, h2⟩
        · exact Or.inl (f1 ▸ h2)
        · exact Or.inr ⟨f1.trans f2, h1.trans h2⟩

theorem memberLe_total (a b : Nat × Box) : memberLe a b ∨ memberLe b a := by
  unfold memberLe
  rcases lt_trichotomy a.2.y1 b.2.y1 with h | h | h
  · exact Or.inl (Or.inl h)
  · rcases le_total a.1 b.1 with h2 | h2
    · exact Or.inl (Or.inr ⟨h, h2⟩)
    · exact Or.inr (Or.inr ⟨h.symm, h2⟩)
  · exact Or.inr (Or.inl h)

theorem memberLe_trans (a b c : Nat × Box) (h1 : memberLe a b)
    (h2 : memberLe b c) : memberLe a c := by
  unfold memberLe at h1 h2 ⊢
  rcases h1 with h1 | ⟨e1, h1⟩
  · rcases h2 with h2 | ⟨e2, _⟩
    · exact Or.inl (h1.trans h2)
    · exact Or.inl (e2 ▸ h1)
  · rcases h2 with h2 | ⟨e2, h2⟩
    · exact Or.inl (e1 ▸ h2)
    · exact Or.inr ⟨e1.trans e2, h1.trans h2⟩

instance : IsTotal (Nat × Box) memberLe := ⟨memberLe_total⟩

instance : IsTrans (Nat × Box) memberLe := ⟨memberLe_trans⟩

instance : IsTotal (ℚ × List (Nat × Box)) colGe := ⟨fun a b => le_total b.1 a.1⟩

instance : IsTrans (ℚ × List (Nat × Box)) colGe := ⟨fun _ _ _ h1 h2 => le_trans h2 h1⟩

/-! ### Basic lemmas about the fallible primitives -/

theorem listMin_isSome {l : List ℚ} (h : l ≠ []) : (listMin l).isSome := by
  cases l with
  | nil => exact absurd rfl h
  | cons x xs => simp [listMin]

theorem listMax_isSome {l : List ℚ} (h : l ≠ []) : (listMax l).isSome := by
  cases l with
  | nil => exact absurd rfl h
  | cons x xs => simp [listMax]

theorem polyBox_isSome {p : Poly} (h : p ≠ []) : (polyBox p).isSome := by
  cases p with
  | nil => exact absurd rfl h
  | cons pt rest => simp [polyBox, listMin, listMax]

theorem mapOpt_length {f : α → Option β} :
    ∀ {l : List α} {l' : List β}, mapOpt f l = some l' → l'.length = l.length := by
  intro l
  induction l with
  | nil => intro l' h; simp [mapOpt] at h; simp [h]
  | cons a as ih =>
    intro l' h
    simp only [mapOpt, Option.bind_eq_bind, Option.bind_eq_some] at h
    obtain ⟨b, _, bs, hbs, hcons⟩ := h
    simp only [Option.pure_def, Option.some.injEq] at hcons
    subst hcons
    simp [ih hbs]

theorem mapOpt_isSome {f : α → Option β} {l : List α}
    (h : ∀ a ∈ l, (f a).isSome) : (mapOpt f l).isSome := by
  induction l with
  | nil => simp [mapOpt]
  | cons a as ih =>
    obtain ⟨b, hb⟩ := Option.isSome_iff_exists.1 (h a (List.mem_cons_self a as))
    obtain ⟨bs, hbs⟩ := Option.isSome_iff_exists.1 (ih fun x hx => h x (List.mem_cons_of_mem a hx))
    simp [mapOpt, hb, hbs]

theorem mapOpt_getElem?_eq {α : Type*} (xs : List α) (dflt : α) :
    ∀ {is : List Nat} {out : List α}, mapOpt (fun i => xs[i]?) is = some out →
      out = is.map (fun i => xs.getD i dflt) ∧ ∀ i ∈ is, i < xs.length := by
  intro is
  induction is with
  | nil => intro out h; simp [mapOpt] at h; simp [h.symm]
  | cons i is ih =>
    intro out h
    simp only [mapOpt, Option.bind_eq_bind, Option.bind_eq_some] at h
    obtain ⟨b, hb, bs, hbs, hcons⟩ := h
    simp only [Option.pure_def, Option.some.injEq] at hcons
    subst hcons
    obtain ⟨hlt, hget⟩ := List.getElem?_eq_some.1 hb
    obtain ⟨heq, hmem⟩ := ih hbs
    constructor
    · rw [List.map_cons, ← heq, List.getD_eq_getElem xs dflt hlt, hget]
    · intro j hj
      rcases List.mem_cons.1 hj with rfl | hj
      · exact hlt
      · exact hmem j hj

theorem mapOpt_getElem?_isSome {α : Type*} {xs : List α} {is : List Nat}
    (h : ∀ i ∈ is, i < xs.length) : (mapOpt (fun i => xs[i]?) is).isSome :=
  mapOpt_isSome fun i hi => by rw [List.getElem?_eq_getElem (h i hi)]; rfl

/-! ### The clustering distributes exactly the input boxes -/

theorem insertCol_members (thr : ℚ) (p : Nat × Box) :
    ∀ cols, colMembers (insertCol thr p cols) ~ p :: colMembers cols := by
  intro cols
  induction cols with
  | nil => simp [insertCol, colMembers]
  | cons c rest ih =>
    obtain ⟨k, ms⟩ := c
    by_cases h : |xCenter p.2 - k| ≤ thr
    · simp only [insertCol, if_pos h, colMembers, List.flatMap_cons]
      rw [List.append_assoc]
      exact List.perm_middle
    · simp only [insertCol, if_neg h, colMembers, List.flatMap_cons]
      calc ms ++ colMembers (insertCol thr p rest)
          ~ ms ++ (p :: colMembers rest) := ih.append_left ms
        _ ~ p :: (ms ++ colMembers rest) := List.perm_middle

theorem buildCols_members_aux (thr : ℚ) :
    ∀ (items : List (Nat × Box)) (cols : List (ℚ × List (Nat × Box))),
      colMembers (items.foldl (fun cs p => insertCol thr p cs) cols) ~
        colMembers cols ++ items := by
  intro items
  induction items with
  | nil => intro cols; simp
  | cons p rest ih =>
    intro cols
    simp only [List.foldl_cons]
    calc colMembers (rest.foldl (fun cs p => insertCol thr p cs) (insertCol thr p cols))
        ~ colMembers (insertCol thr p cols) ++ rest := ih _
      _ ~ (p :: colMembers cols) ++ rest :=
          (insertCol_members thr p cols).append_right rest
      _ ~ colMembers cols ++ p :: rest := List.perm_middle.symm

theorem buildCols_members (thr : ℚ) (items : List (Nat × Box)) :
    colMembers (buildCols thr items) ~ items := by
  have h := buildCols_members_aux thr items []
  simpa [colMembers, buildCols] using h

theorem map_sortColumn_members (cols : List (ℚ × List (Nat × Box))) :
    colMembers (cols.map sortColumn) ~ colMembers cols := by
  induction cols with
  | nil => simp [colMembers]
  | cons c rest ih =>
    simp only [List.map_cons, colMembers, List.flatMap_cons] at *
    exact (List.perm_insertionSort memberLe c.2).append ih

theorem emittedClusters_members (thr : ℚ) (boxes : List Box) :
    colMembers (emittedClusters thr boxes) ~ boxes.enum := by
  unfold emittedClusters
  calc colMembers (((buildCols thr boxes.enum).map sortColumn).insertionSort colGe)
      ~ colMembers ((buildCols thr boxes.enum).map sortColumn) := by
        unfold colMembers
        exact (List.perm_insertionSort colGe _).flatMap_right Prod.snd
    _ ~ colMembers (buildCols thr boxes.enum) := map_sortColumn_members _
    _ ~ boxes.enum := buildCols_members thr boxes.enum

theorem flatMap_fst_eq_map_colMembers (cols : List (ℚ × List (Nat × Box))) :
    cols.flatMap (fun c => c.2.map Prod.fst) = (colMembers cols).map Prod.fst := by
  unfold colMembers
  rw [List.map_flatMap]

theorem verticalSort_perm (boxes : List Box) :
    verticalSort boxes ~ List.range boxes.length := by
  unfold verticalSort
  split
  · exact List.Perm.refl _
  · rw [flatMap_fst_eq_map_colMembers]
    calc (colMembers (emittedClusters _ boxes)).map Prod.fst
        ~ boxes.enum.map Prod.fst := (emittedClusters_members _ boxes).map Prod.fst
      _ = List.range boxes.length := List.enum_map_fst boxes

theorem horizontalSort_perm (boxes : List Box) :
    horizontalSort boxes ~ List.range boxes.length :=
  List.perm_insertionSort _ _

/-! ### Behaviour of the filtering loop -/

theorem filterStep_lengths {o : String} {texts : List String} {scores : List ℚ} :
    ∀ {polys : List Poly} {i : Nat} {out : List String × List ℚ × List Poly},
      filterStep o texts scores i polys = some out →
      out.1.length = out.2.2.length ∧ out.2.1.length = out.2.2.length := by
  intro polys
  induction polys with
  | nil =>
    intro i out h
    simp only [filterStep, Option.some.injEq] at h
    subst h
    exact ⟨rfl, rfl⟩
  | cons poly rest ih =>
    intro i out h
    simp only [filterStep, Option.bind_eq_bind, Option.bind_eq_some] at h
    obtain ⟨b, _, h⟩ := h
    split at h
    · simp only [Option.bind_eq_bind, Option.bind_eq_some] at h
      obtain ⟨t, _, s, _, w, hw, hout⟩ := h
      obtain ⟨ts, ss, ps⟩ := w
      simp only [Option.pure_def, Option.some.injEq] at hout
      subst hout
      obtain ⟨l1, l2⟩ := ih hw
      simp only [List.length_cons]
      exact ⟨by simp [l1], by simp [l2]⟩
    · simp only [Option.bind_eq_bind, Option.bind_eq_some] at h
      obtain ⟨t, _, hrec⟩ := h
      exact ih hrec

theorem filterStep_sublist {o : String} {texts : List String} {scores : List ℚ}
    (hlen : texts.length = scores.length) :
    ∀ {polys : List Poly} {i : Nat} {out : List String × List ℚ × List Poly},
      filterStep o texts scores i polys = some out →
      triples out.1 out.2.1 out.2.2 <+ triples (texts.drop i) (scores.drop i) polys := by
  intro polys
  induction polys with
  | nil =>
    intro i out h
    simp only [filterStep, Option.some.injEq] at h
    subst h
    simp [triples]
  | cons poly rest ih =>
    intro i out h
    simp only [filterStep, Option.bind_eq_bind, Option.bind_eq_some] at h
    obtain ⟨b, _, h⟩ := h
    split at h
    · simp only [Option.bind_eq_bind, Option.bind_eq_some] at h
      obtain ⟨t, ht, s, hs, w, hw, hout⟩ := h
      obtain ⟨ts, ss, ps⟩ := w
      simp only [Option.pure_def, Option.some.injEq] at hout
      subst hout
      obtain ⟨hit, hgt⟩ := List.getElem?_eq_some.1 ht
      obtain ⟨his, hgs⟩ := List.getElem?_eq_some.1 hs
      rw [List.drop_eq_getElem_cons hit, List.drop_eq_getElem_cons his, hgt, hgs]
      simp only [triples, List.zip_cons_cons]
      exact (ih hw).cons₂ _
    · simp only [Option.bind_eq_bind, Option.bind_eq_some] at h
      obtain ⟨t, ht, hrec⟩ := h
      obtain ⟨hit, hgt⟩ := List.getElem?_eq_some.1 ht
      have his : i < scores.length := hlen ▸ hit
      rw [List.drop_eq_getElem_cons hit, List.drop_eq_getElem_cons his]
      simp only [triples, List.zip_cons_cons]
      exact (ih hrec).cons _

theorem filterStep_isSome {o : String} {texts : List String} {scores : List ℚ} :
    ∀ {polys : List Poly} {i : Nat},
      (∀ p ∈ polys, p ≠ []) → i + polys.length ≤ texts.length →
      i + polys.length ≤ scores.length → (filterStep o texts scores i polys).isSome := by
  intro polys
  induction polys with
  | nil => intro i _ _ _; simp [filterStep]
  | cons poly rest ih =>
    intro i hne hT hS
    obtain ⟨b, hb⟩ :=
      Option.isSome_iff_exists.1 (polyBox_isSome (hne poly (List.mem_cons_self poly rest)))
    have hit : i < texts.length := by
      simp only [List.length_cons] at hT
      omega
    have his : i < scores.length := by
      simp only [List.length_cons] at hS
      omega
    have hrec := ih (fun p hp => hne p (List.mem_cons_of_mem _ hp))
      (i := i + 1) (by simp only [List.length_cons] at hT; omega)
      (by simp only [List.length_cons] at hS; omega)
    obtain ⟨w, hw⟩ := Option.isSome_iff_exists.1 hrec
    obtain ⟨ts, ss, ps⟩ := w
    by_cases hk : keepLine o (aspectOf b)
    · simp [filterStep, hb, hk, List.getElem?_eq_getElem hit,
        List.getElem?_eq_getElem his, hw]
    · simp [filterStep, hb, hk, List.getElem?_eq_getElem hit, hw]

/-! ### Behaviour of the orientation detector -/

theorem ite_orientation_values {c : Prop} [Decidable c] {s : String}
    (h : (if c then "vertical" else "horizontal") = s) :
    s = "horizontal" ∨ s = "vertical" := by
  split at h
  · exact Or.inr h.symm
  · exact Or.inl h.symm

theorem detectTextOrientation_values {polys : List Poly} {s : String}
    (h : detectTextOrientation polys = some s) :
    s = "horizontal" ∨ s = "vertical" := by
  unfold detectTextOrientation at h
  split at h
  · exact Or.inl (Option.some.inj h).symm
  · simp only [Option.bind_eq_bind, Option.bind_eq_some] at h
    obtain ⟨boxes, _, h⟩ := h
    split at h
    · exact Or.inr (Option.some.inj h).symm
    · split at h
      · exact Or.inl (Option.some.inj h).symm
      · simp only [Option.bind_eq_bind, Option.bind_eq_some] at h
        obtain ⟨_, _, _, _, _, _, _, _, h⟩ := h
        simp only [Option.pure_def, Option.some.injEq] at h
        exact ite_orientation_values h

theorem detectTextOrientation_isSome {polys : List Poly}
    (h : ∀ p ∈ polys, p ≠ []) : (detectTextOrientation polys).isSome := by
  unfold detectTextOrientation
  split
  · rfl
  · rename_i hne
    obtain ⟨boxes, hboxes⟩ :=
      Option.isSome_iff_exists.1 (mapOpt_isSome fun p hp => polyBox_isSome (h p hp))
    rw [hboxes]
    simp only [Option.bind_eq_bind, Option.some_bind]
    split
    · rfl
    · split
      · rfl
      · have hbne : boxes ≠ [] := by
          intro hb
          have hl := mapOpt_length hboxes
          rw [hb] at hl
          cases polys with
          | nil => simp at hne
          | cons q qs => simp at hl
        obtain ⟨b0, brest, rfl⟩ := List.exists_cons_of_ne_nil hbne
        simp [listMin, listMax, List.flatMap_cons]

/-! ### Structure of a successful run of the sorter -/

theorem core_spec {d : Page} {r : OcrResult} (h : sortByOrientationCore d = some r) :
    ∃ o boxes sT sS sP,
      detectTextOrientation d.rec_polys = some o ∧
      mapOpt polyBox d.rec_polys = some boxes ∧
      mapOpt (fun i => d.rec_texts[i]?)
        (if o = "horizontal" then horizontalSort boxes else verticalSort boxes) = some sT ∧
      mapOpt (fun i => d.rec_scores[i]?)
        (if o = "horizontal" then horizontalSort boxes else verticalSort boxes) = some sS ∧
      mapOpt (fun i => d.rec_polys[i]?)
        (if o = "horizontal" then horizontalSort boxes else verticalSort boxes) = some sP ∧
      filterByOrientation o sT sS sP = some r := by
  unfold sortByOrientationCore at h
  simp only [Option.bind_eq_bind, Option.bind_eq_some] at h
  obtain ⟨o, ho, boxes, hb, sT, hT, sS, hS, sP, hP, hf⟩ := h
  exact ⟨o, boxes, sT, sS, sP, ho, hb, hT, hS, hP, hf⟩

/-! ### Triples of parallel lists -/

theorem triples_eq_map_range (dT : String) (dS : ℚ) (dP : Poly) :
    ∀ (ps : List Poly) (ts : List String) (ss : List ℚ),
      ts.length = ps.length → ss.length = ps.length →
      triples ts ss ps = (List.range ps.length).map
        (fun i => (ts.getD i dT, ss.getD i dS, ps.getD i dP)) := by
  intro ps
  induction ps with
  | nil =>
    intro ts ss h1 h2
    simp only [List.length_nil, List.length_eq_zero] at h1 h2
    subst h1
    subst h2
    simp [triples]
  | cons p ps ih =>
    intro ts ss h1 h2
    cases ts with
    | nil => simp at h1
    | cons t ts =>
      cases ss with
      | nil => simp at h2
      | cons s ss =>
        simp only [List.length_cons] at h1 h2
        have ihh := ih ts ss (by omega) (by omega)
        simp only [triples] at ihh ⊢
        simp only [List.zip_cons_cons, List.length_cons, List.range_succ_eq_map,
          List.map_cons, List.map_map, List.getD_cons_zero]
        rw [ihh]
        simp [Function.comp_def, List.getD_cons_succ]

/-! ### Every box lands in a column whose key is near its center -/

theorem insertCol_inv {thr : ℚ} (h0 : 0 ≤ thr) (p : Nat × Box) :
    ∀ {cols}, (∀ c ∈ cols, ∀ q ∈ c.2, |xCenter q.2 - c.1| ≤ thr) →
      ∀ c ∈ insertCol thr p cols, ∀ q ∈ c.2, |xCenter q.2 - c.1| ≤ thr := by
  intro cols
  induction cols with
  | nil =>
    intro _ c hc q hq
    simp only [insertCol, List.mem_singleton] at hc
    subst hc
    simp only [List.mem_singleton] at hq
    subst hq
    simpa using h0
  | cons c0 rest ih =>
    obtain ⟨k, ms⟩ := c0
    intro hinv c hc q hq
    by_cases hmatch : |xCenter p.2 - k| ≤ thr
    · rw [insertCol, if_pos hmatch] at hc
      rcases List.mem_cons.1 hc with rfl | hc
      · rcases List.mem_append.1 hq with hq | hq
        · exact hinv (k, ms) (List.mem_cons_self _ _) q hq
        · simp only [List.mem_singleton] at hq
          subst hq
          exact hmatch
      · exact hinv c (List.mem_cons_of_mem _ hc) q hq
    · rw [insertCol, if_neg hmatch] at hc
      rcases List.mem_cons.1 hc with rfl | hc
      · exact hinv (k, ms) (List.mem_cons_self _ _) q hq
      · exact ih (fun c hc => hinv c (List.mem_cons_of_mem _ hc)) c hc q hq

theorem buildCols_inv {thr : ℚ} (h0 : 0 ≤ thr) :
    ∀ (items : List (Nat × Box)) (cols),
      (∀ c ∈ cols, ∀ q ∈ c.2, |xCenter q.2 - c.1| ≤ thr) →
      ∀ c ∈ items.foldl (fun cs p => insertCol thr p cs) cols,
        ∀ q ∈ c.2, |xCenter q.2 - c.1| ≤ thr := by
  intro items
  induction items with
  | nil => intro cols h; simpa using h
  | cons p rest ih =>
    intro cols h
    simp only [List.foldl_cons]
    exact ih _ (insertCol_inv h0 p h)

/-! ### Claim C2 -/

/-- C2 counterexample: `polysC2` has one horizontal box of aspect 2 > 1.1
whose area (20000) exceeds 1.05x the summed area (100) of its two vertical
boxes of aspect 1/2 < 0.9, with vertical count 2 > horizontal count 1; the
claim demands `Horizontal`, but the classifier returns `vertical`, because
it uses a pure per-line count vote and never looks at areas. -/
theorem C2_counterexample :
    mapOpt polyBox polysC2 =
      some [⟨0, 0, 200, 100⟩, ⟨0, 0, 5, 10⟩, ⟨10, 0, 15, 10⟩] ∧
    aspectOf ⟨0, 0, 200, 100⟩ = 2 ∧ (1.1 : ℚ) < 2 ∧
    aspectOf ⟨0, 0, 5, 10⟩ = 1 / 2 ∧ aspectOf ⟨10, 0, 15, 10⟩ = 1 / 2 ∧
    (1 / 2 : ℚ) < 0.9 ∧
    (1.05 : ℚ) * ((5 - 0) * (10 - 0) + (15 - 10) * (10 - 0)) < (200 - 0) * (100 - 0) ∧
    detectTextOrientation polysC2 = some "vertical" ∧
    detectTextOrientation polysC2 ≠ some "horizontal" := by
  with_unfolding_all decide

/-- C2 (amended): the classifier decides by a per-line count vote, not by
area: whenever strictly more lines have aspect < 0.6 (counted vertical)
than have aspect > 1.4 (counted horizontal), the result is `vertical`,
regardless of any box area. -/
theorem C2_count_majority {polys : List Poly} {boxes : List Box}
    (hne : polys ≠ []) (hbox : mapOpt polyBox polys = some boxes)
    (hcount : (boxes.map aspectOf).countP (fun ar => lineVote ar == some false) <
      (boxes.map aspectOf).countP (fun ar => lineVote ar == some true)) :
    detectTextOrientation polys = some "vertical" := by
  have hne' : polys.isEmpty = false := by
    cases polys with
    | nil => exact absurd rfl hne
    | cons a as => rfl
  unfold detectTextOrientation
  rw [hne']
  simp only [Bool.false_eq_true, if_false, hbox, Option.bind_eq_bind, Option.some_bind]
  rw [if_pos hcount]
  rfl

/-- Witness for `C2_count_majority` at the concrete input `polysC2`. -/
theorem C2_count_majority_witness :
    detectTextOrientation polysC2 = some "vertical" :=
  @C2_count_majority polysC2 [⟨0, 0, 200, 100⟩, ⟨0, 0, 5, 10⟩, ⟨10, 0, 15, 10⟩]
    (by with_unfolding_all decide) (by with_unfolding_all decide)
    (by with_unfolding_all decide)

/-! ### Claim C3 -/

/-- C3 counterexample: the dead band is (0.6, 1.4), not [0.9, 1.1]. A
detection of aspect 0.8 < 0.9, which the claim says must count as a
Vertical vote, gets no vote at all; consequently on `polysC3` (two large
aspect-0.8 boxes against one tiny aspect-2 box) the code returns
`horizontal`, although under the claimed thresholds the two 0.8-aspect
boxes would dominate both count and area and force Vertical. -/
theorem C3_counterexample :
    (4 / 5 : ℚ) < 0.9 ∧ lineVote (4 / 5) = none ∧
    mapOpt polyBox polysC3 =
      some [⟨0, 0, 80, 100⟩, ⟨100, 0, 180, 100⟩, ⟨0, 200, 2, 201⟩] ∧
    aspectOf ⟨0, 0, 80, 100⟩ = 4 / 5 ∧ aspectOf ⟨100, 0, 180, 100⟩ = 4 / 5 ∧
    aspectOf ⟨0, 200, 2, 201⟩ = 2 ∧
    detectTextOrientation polysC3 = some "horizontal" := by
  with_unfolding_all decide

/-- C3 (amended): the per-detection vote uses the dead band (0.6, 1.4):
aspect < 0.6 counts as Vertical, aspect > 1.4 counts as Horizontal, and any
aspect in [0.6, 1.4] gets no vote and is excluded from the tallies. -/
theorem C3_dead_band (ar : ℚ) :
    (ar < 0.6 → lineVote ar = some true) ∧
    (1.4 < ar → lineVote ar = some false) ∧
    (0.6 ≤ ar → ar ≤ 1.4 → lineVote ar = none) := by
  refine ⟨fun h => ?_, fun h => ?_, fun h1 h2 => ?_⟩
  · simp [lineVote, h]
  · unfold lineVote
    rw [if_neg (by linarith), if_pos h]
  · unfold lineVote
    rw [if_neg (by linarith), if_neg (by linarith)]

/-- Witness for `C3_dead_band` at the aspects 1/2, 2 and 1. -/
theorem C3_dead_band_witness :
    lineVote (1 / 2) = some true ∧ lineVote 2 = some false ∧ lineVote 1 = none :=
  ⟨(C3_dead_band (1 / 2)).1 (by norm_num),
   (C3_dead_band 2).2.1 (by norm_num),
   (C3_dead_band 1).2.2 (by norm_num) (by norm_num)⟩

/-! ### Claim C4 -/

/-- C4 counterexample: clustering keys on the x-center with threshold
`max(10, 0.05 * (global x-range))`, not on the right edge `x2`. The two
boxes of `boxesC4` share the identical right edge `x2 = 100`, so under the
claim they must share a cluster, but their x-centers (98 and 85) differ by
more than the threshold 10 and the code builds two clusters. -/
theorem C4_counterexample :
    boxesC4.map (fun b => b.x2) = [100, 100] ∧
    max 10 (0.05 * (100 - 70)) = (10 : ℚ) ∧
    (buildCols 10 boxesC4.enum).map (fun c => (c.1, c.2.map Prod.fst)) =
      [(98, [0]), (85, [1])] ∧
    verticalSort boxesC4 =
      (emittedClusters 10 boxesC4).flatMap (fun c => c.2.map Prod.fst) ∧
    (buildCols 10 boxesC4.enum).length = 2 := by
  with_unfolding_all decide

/-- C4 (amended): column clustering groups detections by x-center, with
the adaptive threshold passed in (the code uses
`max(10, 0.05 * (max_x - min_x))`): every member of a built column sits
within the threshold of the column key (the founding member's x-center),
hence two boxes in the same column have x-centers within twice the
threshold; a box farther than the threshold from every existing key founds
its own column. -/
theorem C4_center_clustering {thr : ℚ} (h0 : 0 ≤ thr) (items : List (Nat × Box)) :
    ∀ c ∈ buildCols thr items,
      (∀ p ∈ c.2, |xCenter p.2 - c.1| ≤ thr) ∧
      ∀ p ∈ c.2, ∀ q ∈ c.2, |xCenter p.2 - xCenter q.2| ≤ 2 * thr := by
  intro c hc
  have h1 := buildCols_inv h0 items [] (by simp) c hc
  refine ⟨h1, fun p hp q hq => ?_⟩
  calc |xCenter p.2 - xCenter q.2|
      ≤ |xCenter p.2 - c.1| + |c.1 - xCenter q.2| := abs_sub_le _ _ _
    _ ≤ thr + thr := add_le_add (h1 p hp) (abs_sub_comm c.1 (xCenter q.2) ▸ h1 q hq)
    _ = 2 * thr := (two_mul thr).symm

/-- Witness for `C4_center_clustering` on the concrete boxes `boxesC4`
with the threshold 10 the code computes for them: the member of the first
built column sits within 10 of its column key 98. -/
theorem C4_center_clustering_witness :
    |xCenter (⟨96, 0, 100, 10⟩ : Box) - 98| ≤ 10 ∧
    |xCenter (⟨96, 0, 100, 10⟩ : Box) - xCenter (⟨96, 0, 100, 10⟩ : Box)| ≤ 2 * 10 :=
  ⟨(C4_center_clustering (by norm_num) boxesC4.enum
      ((98 : ℚ), [((0 : Nat), (⟨96, 0, 100, 10⟩ : Box))])
      (by with_unfolding_all decide)).1
      ((0 : Nat), (⟨96, 0, 100, 10⟩ : Box)) (by decide),
   (C4_center_clustering (by norm_num) boxesC4.enum
      ((98 : ℚ), [((0 : Nat), (⟨96, 0, 100, 10⟩ : Box))])
      (by with_unfolding_all decide)).2
      ((0 : Nat), (⟨96, 0, 100, 10⟩ : Box)) (by decide)
      ((0 : Nat), (⟨96, 0, 100, 10⟩ : Box)) (by decide)⟩

/-! ### Claim C5 -/

/-- C5 counterexample: clusters are ordered by the founding member's
x-center descending, not by the cluster's maximum `x2`. In `boxesC5` the
code builds the clusters {0, 2} (key 100, maximum x2 = 118) and {1}
(key 111, x2 = 116); the claim demands every member of the max-x2-118
cluster before the lone index 1, but the code emits index 1 first, as the
full pipeline on `pageC5` confirms (text "b" precedes "a" and "c"). -/
theorem C5_counterexample :
    boxesC5.map (fun b => b.x2) = [105, 116, 118] ∧
    (emittedClusters 10 boxesC5).map (fun c => (c.1, c.2.map Prod.fst)) =
      [(111, [1]), (100, [0, 2])] ∧
    verticalSort boxesC5 =
      (emittedClusters 10 boxesC5).flatMap (fun c => c.2.map Prod.fst) ∧
    verticalSort boxesC5 = [1, 0, 2] ∧
    (sortByOrientation pageC5).rec_texts = ["b", "a", "c"] ∧
    pageC5.rec_texts = ["a", "b", "c"] ∧
    (sortByOrientation pageC5).orientation = some "vertical" := by
  with_unfolding_all decide

/-- C5 (amended): on a vertical page the emitted order concatenates the
built clusters sorted by column key (founder's x-center) descending, each
cluster's members sorted by `ymin` ascending with ties kept in original
index order. -/
theorem C5_emission_order (boxes : List Box) (hne : boxes ≠ []) :
    ∃ thr : ℚ,
      verticalSort boxes =
        (emittedClusters thr boxes).flatMap (fun c => c.2.map Prod.fst) ∧
      List.Sorted colGe (emittedClusters thr boxes) ∧
      ∀ c ∈ emittedClusters thr boxes, List.Sorted memberLe c.2 := by
  obtain ⟨b, rest, rfl⟩ := List.exists_cons_of_ne_nil hne
  refine ⟨_, rfl, ?_, ?_⟩
  · exact List.sorted_insertionSort colGe _
  · intro c hc
    unfold emittedClusters at hc
    rw [List.mem_insertionSort] at hc
    obtain ⟨c0, _, rfl⟩ := List.mem_map.1 hc
    exact List.sorted_insertionSort memberLe _

/-- Witness for `C5_emission_order` at the concrete boxes `boxesC5`. -/
theorem C5_emission_order_witness :
    ∃ thr : ℚ,
      verticalSort boxesC5 =
        (emittedClusters thr boxesC5).flatMap (fun c => c.2.map Prod.fst) ∧
      List.Sorted colGe (emittedClusters thr boxesC5) ∧
      ∀ c ∈ emittedClusters thr boxesC5, List.Sorted memberLe c.2 :=
  C5_emission_order boxesC5 (by decide)

/-! ### Claim C6 -/

/-- C6: on a horizontal page the emitted index order is a permutation of
all indices, sorted by the lexicographic key (ymin, xmin, original index)
— i.e. by (ymin asc, xmin asc) with ties broken by original index — and on
the spec's concrete example (`y = [0, 0, 10]`, `x = [50, 0, 0]`) the full
pipeline emits the texts in the order (x=0,y=0), (x=50,y=0), (x=0,y=10). -/
theorem C6_horizontal_order :
    (∀ boxes : List Box,
      horizontalSort boxes ~ List.range boxes.length ∧
      List.Sorted (fun i j => keyLe (hKey boxes i) (hKey boxes j))
        (horizontalSort boxes)) ∧
    pageC6.rec_texts = ["A", "B", "C"] ∧
    (sortByOrientation pageC6).rec_texts = ["B", "A", "C"] ∧
    (sortByOrientation pageC6).orientation = some "horizontal" := by
  refine ⟨fun boxes => ⟨horizontalSort_perm boxes, ?_⟩, rfl, ?_, ?_⟩
  · haveI : IsTotal Nat (fun i j => keyLe (hKey boxes i) (hKey boxes j)) :=
      ⟨fun i j => keyLe_total _ _⟩
    haveI : IsTrans Nat (fun i j => keyLe (hKey boxes i) (hKey boxes j)) :=
      ⟨fun a b c => keyLe_trans _ _ _⟩
    exact List.sorted_insertionSort _ _
  · with_unfolding_all decide
  · with_unfolding_all decide

/-! ### Claim C7 -/

/-- C7: whenever any step of the pipeline raises (the core computation is
`none`), the catch-all returns the original page's three arrays unchanged
and no exception escapes; nothing partially reordered is ever produced. -/
theorem C7_exception_fallback (d : Page) (h : sortByOrientationCore d = none) :
    sortByOrientation d = ⟨none, d.rec_texts, d.rec_scores, d.rec_polys⟩ := by
  unfold sortByOrientation
  rw [h]

/-- Witness for `C7_exception_fallback` at `pageC7`, whose `rec_texts` is
shorter than `rec_polys`, so `texts[0]` raises during regrouping. -/
theorem C7_exception_fallback_witness :
    sortByOrientationCore pageC7 = none ∧
    sortByOrientation pageC7 =
      ⟨none, pageC7.rec_texts, pageC7.rec_scores, pageC7.rec_polys⟩ :=
  ⟨by with_unfolding_all decide,
   C7_exception_fallback pageC7 (by with_unfolding_all decide)⟩

/-! ### Claim C8 -/

/-- C8 counterexample: on the empty page the early return of
`filter_by_orientation` builds the result dict without an `"orientation"`
key, so the record returned by the entry point carries no orientation tag
at all — neither `"horizontal"` nor `"vertical"`. -/
theorem C8_counterexample :
    (sortByOrientation ⟨[], [], []⟩).orientation = none ∧
    (sortByOrientation ⟨[], [], []⟩).orientation ≠ some "horizontal" ∧
    (sortByOrientation ⟨[], [], []⟩).orientation ≠ some "vertical" := by
  with_unfolding_all decide

/-- C8 (amended): when the pipeline succeeds on a page with at least one
detection, the returned record does carry the orientation tag, which is
either `"horizontal"` or `"vertical"`; the empty page and the exception
path return a record without the tag. -/
theorem C8_orientation_tag {d : Page} {r : OcrResult}
    (h : sortByOrientationCore d = some r) (hne : d.rec_polys ≠ []) :
    r.orientation = some "horizontal" ∨ r.orientation = some "vertical" := by
  obtain ⟨o, boxes, sT, sS, sP, hdet, hbox, hT, hS, hP, hfil⟩ := core_spec h
  have hovals := detectTextOrientation_values hdet
  have hblen : boxes.length = d.rec_polys.length := mapOpt_length hbox
  have hilen : (if o = "horizontal" then horizontalSort boxes else
      verticalSort boxes).length = boxes.length := by
    split
    · exact (horizontalSort_perm boxes).length_eq.trans (List.length_range _)
    · exact (verticalSort_perm boxes).length_eq.trans (List.length_range _)
  have hPlen : sP.length = d.rec_polys.length :=
    (mapOpt_length hP).trans (hilen.trans hblen)
  have hPne : sP.isEmpty = false := by
    cases sP with
    | nil =>
      simp only [List.length_nil] at hPlen
      exact absurd (List.length_eq_zero.1 hPlen.symm) hne
    | cons a as => rfl
  unfold filterByOrientation at hfil
  rw [hPne] at hfil
  simp only [Bool.false_eq_true, if_false, Option.bind_eq_bind,
    Option.bind_eq_some] at hfil
  obtain ⟨w, _, hout⟩ := hfil
  obtain ⟨ts, ss, ps⟩ := w
  simp only [Option.pure_def, Option.some.injEq] at hout
  subst hout
  rcases hovals with ho | ho
  · exact Or.inl (congrArg some ho)
  · exact Or.inr (congrArg some ho)

/-- Witness for `C8_orientation_tag` at the one-detection page `pageC8`. -/
theorem C8_orientation_tag_witness :
    (⟨some "horizontal", ["x"], [1],
        [[(0, 0), (30, 0), (30, 10), (0, 10)]]⟩ : OcrResult).orientation =
      some "horizontal" ∨
    (⟨some "horizontal", ["x"], [1],
        [[(0, 0), (30, 0), (30, 10), (0, 10)]]⟩ : OcrResult).orientation =
      some "vertical" :=
  @C8_orientation_tag pageC8
    ⟨some "horizontal", ["x"], [1], [[(0, 0), (30, 0), (30, 10), (0, 10)]]⟩
    (by with_unfolding_all decide) (by decide)

/-! ### Claim C9 -/

/-- C9 counterexample: a 2-point polygon indeed raises nothing (the core
computation succeeds — min/max work on two points), but the output does
not equal the input: `pageC9` contains a 2-point square polygon that the
horizontal filter then drops, so only one of the two input texts is
returned. -/
theorem C9_counterexample :
    (pageC9.rec_polys.getD 0 []).length = 2 ∧
    (sortByOrientationCore pageC9).isSome = true ∧
    (sortByOrientation pageC9).rec_texts = ["b"] ∧
    pageC9.rec_texts = ["a", "b"] ∧
    sortByOrientation pageC9 ≠
      ⟨none, pageC9.rec_texts, pageC9.rec_scores, pageC9.rec_polys⟩ := by
  with_unfolding_all decide

/-- C9 (amended): a polygon with only 2 points does not raise: on any page
whose parallel arrays have equal lengths and whose polygons each have at
least one point (2 points included), the whole pipeline succeeds and the
entry point returns its normally computed (sorted and filtered) result —
which need not equal the input. -/
theorem C9_no_raise (d : Page)
    (h1 : d.rec_texts.length = d.rec_polys.length)
    (h2 : d.rec_scores.length = d.rec_polys.length)
    (h3 : ∀ p ∈ d.rec_polys, p ≠ []) :
    ∃ r, sortByOrientationCore d = some r ∧ sortByOrientation d = r := by
  suffices hs : (sortByOrientationCore d).isSome by
    obtain ⟨r, hr⟩ := Option.isSome_iff_exists.1 hs
    exact ⟨r, hr, by unfold sortByOrientation; rw [hr]⟩
  unfold sortByOrientationCore
  obtain ⟨o, ho⟩ := Option.isSome_iff_exists.1 (detectTextOrientation_isSome h3)
  obtain ⟨boxes, hbox⟩ := Option.isSome_iff_exists.1
    (mapOpt_isSome fun p hp => polyBox_isSome (h3 p hp))
  simp only [ho, hbox, Option.bind_eq_bind, Option.some_bind]
  have hblen : boxes.length = d.rec_polys.length := mapOpt_length hbox
  have hiperm : (if o = "horizontal" then horizontalSort boxes else
      verticalSort boxes) ~ List.range d.rec_polys.length := by
    rw [← hblen]
    split
    · exact horizontalSort_perm boxes
    · exact verticalSort_perm boxes
  have hmem : ∀ i ∈ (if o = "horizontal" then horizontalSort boxes else
      verticalSort boxes), i < d.rec_polys.length := by
    intro i hi
    have := hiperm.mem_iff.1 hi
    simpa [List.mem_range] using this
  obtain ⟨sT, hT⟩ := Option.isSome_iff_exists.1
    (@mapOpt_getElem?_isSome _ d.rec_texts _ (fun i hi => h1 ▸ hmem i hi))
  rw [hT]
  simp only [Option.some_bind]
  obtain ⟨sS, hS⟩ := Option.isSome_iff_exists.1
    (@mapOpt_getElem?_isSome _ d.rec_scores _ (fun i hi => h2 ▸ hmem i hi))
  rw [hS]
  simp only [Option.some_bind]
  obtain ⟨sP, hP⟩ := Option.isSome_iff_exists.1
    (@mapOpt_getElem?_isSome _ d.rec_polys _ hmem)
  rw [hP]
  simp only [Option.some_bind]
  obtain ⟨hPeq, _⟩ := mapOpt_getElem?_eq d.rec_polys [] hP
  unfold filterByOrientation
  split
  · rfl
  · have hlT : sT.length = (if o = "horizontal" then horizontalSort boxes else
        verticalSort boxes).length := mapOpt_length hT
    have hlS : sS.length = (if o = "horizontal" then horizontalSort boxes else
        verticalSort boxes).length := mapOpt_length hS
    have hlP : sP.length = (if o = "horizontal" then horizontalSort boxes else
        verticalSort boxes).length := mapOpt_length hP
    have hnep : ∀ p ∈ sP, p ≠ [] := by
      intro p hp
      rw [hPeq] at hp
      obtain ⟨i, hi, rfl⟩ := List.mem_map.1 hp
      rw [List.getD_eq_getElem _ _ (hmem i hi)]
      exact h3 _ (List.getElem_mem _)
    obtain ⟨w, hw⟩ := Option.isSome_iff_exists.1
      (@filterStep_isSome o sT sS sP 0 hnep (by omega) (by omega))
    obtain ⟨ts, ss, ps⟩ := w
    simp [hw]

/-- Witness for `C9_no_raise` at `pageC9`, whose first polygon has only
two points. -/
theorem C9_no_raise_witness :
    ∃ r, sortByOrientationCore pageC9 = some r ∧ sortByOrientation pageC9 = r :=
  C9_no_raise pageC9 (by decide) (by decide) (by decide)

/-! ### Claim C10 -/

/-- C10: on parallel arrays of equal length (with well-formed, nonempty
polygons), `filter_by_orientation` returns three sequences of equal length
whose (text, score, polygon) triples form an order-preserving subsequence
of the input triples: retained detections are unmodified and keep their
relative order, and the three arrays stay synchronized. -/
theorem C10_filter_order_preserving (o : String) (texts : List String)
    (scores : List ℚ) (polys : List Poly)
    (h1 : texts.length = polys.length) (h2 : scores.length = polys.length)
    (h3 : ∀ p ∈ polys, p ≠ []) :
    ∃ r, filterByOrientation o texts scores polys = some r ∧
      r.rec_texts.length = r.rec_polys.length ∧
      r.rec_scores.length = r.rec_polys.length ∧
      triples r.rec_texts r.rec_scores r.rec_polys <+ triples texts scores polys := by
  unfold filterByOrientation
  split
  · exact ⟨⟨none, [], [], []⟩, rfl, rfl, rfl, by simp [triples]⟩
  · obtain ⟨w, hw⟩ := Option.isSome_iff_exists.1
      (@filterStep_isSome o texts scores polys 0 h3 (by omega) (by omega))
    obtain ⟨ts, ss, ps⟩ := w
    obtain ⟨l1, l2⟩ := filterStep_lengths hw
    have hsub := filterStep_sublist (h1.trans h2.symm) hw
    simp only [List.drop_zero] at hsub
    refine ⟨⟨some o, ts, ss, ps⟩, ?_, l1, l2, hsub⟩
    simp [hw]

/-- Witness for `C10_filter_order_preserving` at the concrete two-detection
input `pageC10` with orientation `"horizontal"`. -/
theorem C10_filter_order_preserving_witness :
    ∃ r, filterByOrientation "horizontal" pageC10.rec_texts pageC10.rec_scores
        pageC10.rec_polys = some r ∧
      r.rec_texts.length = r.rec_polys.length ∧
      r.rec_scores.length = r.rec_polys.length ∧
      triples r.rec_texts r.rec_scores r.rec_polys <+
        triples pageC10.rec_texts pageC10.rec_scores pageC10.rec_polys :=
  C10_filter_order_preserving "horizontal" pageC10.rec_texts pageC10.rec_scores
    pageC10.rec_polys (by decide) (by decide) (by decide)

/-! ### Claim C1 -/

/-- C1 counterexample: the entry point does not keep all detections: on the
valid one-detection page `pageC1` (a 4-point polygon of aspect 1.45, which
votes horizontal but is below the 1.5 keep threshold of the horizontal
filter), the returned arrays are empty, so the output is not a permutation
of the input triples. -/
theorem C1_counterexample :
    pageC1.rec_texts.length = 1 ∧ pageC1.rec_scores.length = 1 ∧
    pageC1.rec_polys.length = 1 ∧ (pageC1.rec_polys.getD 0 []).length = 4 ∧
    sortByOrientation pageC1 = ⟨some "horizontal", [], [], []⟩ ∧
    (sortByOrientation pageC1).rec_texts.length ≠ pageC1.rec_texts.length := by
  with_unfolding_all decide

/-- C1 (amended): on any page whose three arrays have equal lengths, the
entry point returns three arrays of equal lengths whose (text, score,
polygon) triples are a sub-permutation of the input triples — every output
triple is an input triple, none is duplicated — but detections whose
aspect ratio contradicts the detected orientation may be dropped, so the
output need not contain all of the input. -/
theorem C1_sub_permutation (d : Page)
    (h1 : d.rec_texts.length = d.rec_polys.length)
    (h2 : d.rec_scores.length = d.rec_polys.length) :
    (sortByOrientation d).rec_texts.length = (sortByOrientation d).rec_polys.length ∧
    (sortByOrientation d).rec_scores.length = (sortByOrientation d).rec_polys.length ∧
    triples (sortByOrientation d).rec_texts (sortByOrientation d).rec_scores
        (sortByOrientation d).rec_polys <+~
      triples d.rec_texts d.rec_scores d.rec_polys := by
  cases hc : sortByOrientationCore d with
  | none =>
    unfold sortByOrientation
    rw [hc]
    exact ⟨h1, h2, List.Subperm.refl _⟩
  | some r =>
    unfold sortByOrientation
    rw [hc]
    obtain ⟨o, boxes, sT, sS, sP, hdet, hbox, hT, hS, hP, hfil⟩ := core_spec hc
    have hblen : boxes.length = d.rec_polys.length := mapOpt_length hbox
    have hperm : (if o = "horizontal" then horizontalSort boxes else
        verticalSort boxes) ~ List.range d.rec_polys.length := by
      rw [← hblen]
      split
      · exact horizontalSort_perm boxes
      · exact verticalSort_perm boxes
    obtain ⟨hTeq, hTlt⟩ := mapOpt_getElem?_eq d.rec_texts "" hT
    obtain ⟨hSeq, _⟩ := mapOpt_getElem?_eq d.rec_scores 0 hS
    obtain ⟨hPeq, _⟩ := mapOpt_getElem?_eq d.rec_polys [] hP
    have htr : triples sT sS sP =
        (if o = "horizontal" then horizontalSort boxes else verticalSort boxes).map
          (fun i => (d.rec_texts.getD i "", d.rec_scores.getD i 0,
            d.rec_polys.getD i [])) := by
      rw [hTeq, hSeq, hPeq]
      unfold triples
      rw [List.zip_map', List.zip_map']
    have hinp : triples d.rec_texts d.rec_scores d.rec_polys =
        (List.range d.rec_polys.length).map
          (fun i => (d.rec_texts.getD i "", d.rec_scores.getD i 0,
            d.rec_polys.getD i [])) :=
      triples_eq_map_range "" 0 [] d.rec_polys d.rec_texts d.rec_scores h1 h2
    have hpermT : triples sT sS sP ~ triples d.rec_texts d.rec_scores d.rec_polys := by
      rw [htr, hinp]
      exact hperm.map _
    have hlT : sT.length = (if o = "horizontal" then horizontalSort boxes else
        verticalSort boxes).length := mapOpt_length hT
    have hlS : sS.length = (if o = "horizontal" then horizontalSort boxes else
        verticalSort boxes).length := mapOpt_length hS
    unfold filterByOrientation at hfil
    split at hfil
    · simp only [Option.some.injEq] at hfil
      subst hfil
      refine ⟨rfl, rfl, ?_⟩
      have : triples ([] : List String) ([] : List ℚ) ([] : List Poly) = [] := rfl
      rw [this]
      exact List.nil_subperm
    · simp only [Option.bind_eq_bind, Option.bind_eq_some] at hfil
      obtain ⟨w, hw, hout⟩ := hfil
      obtain ⟨ts, ss, ps⟩ := w
      simp only [Option.pure_def, Option.some.injEq] at hout
      subst hout
      obtain ⟨l1, l2⟩ := filterStep_lengths hw
      have hsub := filterStep_sublist (hlT.trans hlS.symm) hw
      simp only [List.drop_zero] at hsub
      exact ⟨l1, l2, hsub.subperm.trans hpermT.subperm⟩

/-- Witness for `C1_sub_permutation` at the valid page `pageC1`. -/
theorem C1_sub_permutation_witness :
    (sortByOrientation pageC1).rec_texts.length =
      (sortByOrientation pageC1).rec_polys.length ∧
    (sortByOrientation pageC1).rec_scores.length =
      (sortByOrientation pageC1).rec_polys.length ∧
    triples (sortByOrientation pageC1).rec_texts (sortByOrientation pageC1).rec_scores
        (sortByOrientation pageC1).rec_polys <+~
      triples pageC1.rec_texts pageC1.rec_scores pageC1.rec_polys :=
  C1_sub_permutation pageC1 (by decide) (by decide)

end GujiReader
